import Mathlib

/-!
# Verification of the hopper reverse proxy core

Shallow embedding of `src/main.rs` of the `hopper` Minecraft-style reverse
proxy: the VarInt codec (`read_varint`, `write_varint`), the handshake parsing
and forwarding logic of `Server::proxy`, the route table operations, the
startup configuration logic of `Server::new`, and a model of the snapshot
round trip.

Conventions of the embedding:
* A byte stream is a `List Nat` of bytes (values `< 256`); reading from an
  async reader becomes explicit state passing (the unread remainder of the
  stream is returned next to each parse result).
* Rust `i32` values are embedded as `Int`.  Lean's `Int` division and
  remainder are euclidean: for the positive divisors used here (`128`, `256`)
  `val / 128` is floor division, which coincides with Rust's arithmetic right
  shift `val >> 7`, and `val % 256` yields the low byte, which coincides with
  Rust's `val as u8`.  Where Rust truncates a shift to 32 bits, the embedding
  takes `% 2 ^ 32` explicitly.
* Fallible Rust code (`anyhow::Result`) becomes `Except String`.
-/

/-! ## VarInt codec (`read_varint` / `write_varint` in `src/main.rs`) -/

/-- `SEGMENT_BITS` from `src/main.rs`: the 7 data bits of a VarInt byte. -/
def SEGMENT_BITS : Nat := 0x7F

/-- `CONTINUE_BIT` from `src/main.rs`: the continuation bit of a VarInt byte. -/
def CONTINUE_BIT : Nat := 0x80

/-- Two's-complement reading of a 32-bit accumulator, i.e. the value of the
Rust `i32` variable `val` holding the bit pattern `n`. -/
def toI32 (n : Nat) : Int :=
  if n % 2 ^ 32 < 2 ^ 31 then ((n % 2 ^ 32 : Nat) : Int)
  else ((n % 2 ^ 32 : Nat) : Int) - 2 ^ 32

/-- The loop of `read_varint`.  Each iteration reads one byte `b`, ors the low
7 bits of `b` shifted by `pos` into the accumulator `val` (truncated to 32
bits as the Rust `i32` shift is), advances `pos` by 7, bails out with
"varint too long" as soon as `pos` reaches 32, and otherwise continues
while the continuation bit of `b` is set. -/
def readVarintAux : List Nat → Nat → Nat → Except String (Int × List Nat)
  | [], _, _ => .error "unexpected eof"
  | b :: rest, val, pos =>
    let val2 := val ||| ((b &&& SEGMENT_BITS) <<< pos) % 2 ^ 32
    let pos2 := pos + 7
    if pos2 ≥ 32 then .error "varint too long"
    else if b &&& CONTINUE_BIT = CONTINUE_BIT then readVarintAux rest val2 pos2
    else .ok (toI32 val2, rest)

/-- `read_varint` from `src/main.rs`: decode one VarInt from the front of the
stream, returning the value and the unread remainder. -/
def read_varint (stream : List Nat) : Except String (Int × List Nat) :=
  readVarintAux stream 0 0

/-- `write_varint` from `src/main.rs`: the bytes written to the sink for the
`i32` value `val`.  `(val % 256).toNat &&& 0x7F` is Rust's
`val as u8 & SEGMENT_BITS` and `val / 128` is Rust's arithmetic right shift
`val >> 7` (euclidean division by a positive divisor is floor division). -/
def write_varint (val : Int) : List Nat :=
  let tmp := (val % 256).toNat &&& SEGMENT_BITS
  let val2 := val / 128
  if val2 > 0 then (tmp ||| CONTINUE_BIT) :: write_varint val2
  else [tmp]
termination_by val.toNat
decreasing_by omega

/-- Encoder described by the spec (§4.1): repeatedly emit the low 7 bits of
the remaining *unsigned* value with the high bit set, shift right by 7,
until the remainder is zero, then emit a final byte with the high bit
clear.  Stated on the unsigned 32-bit pattern `u` of the value.  Used only
to compare `write_varint` against the specified behaviour. -/
def encodeUnsigned (u : Nat) : List Nat :=
  if u / 128 > 0 then (u % 128 ||| CONTINUE_BIT) :: encodeUnsigned (u / 128)
  else [u % 128]
termination_by u
decreasing_by omega

/-! ## Arithmetic helper lemmas for the codec -/

/-- A 32-bit accumulator below `2 ^ 31` reads back as itself. -/
lemma toI32_small {n : Nat} (h : n < 2 ^ 31) : toI32 n = (n : Int) := by
  unfold toI32
  rw [Nat.mod_eq_of_lt (show n < 2 ^ 32 by omega), if_pos h]

/-- Oring a fresh 7-bit group above the bits already accumulated is addition. -/
lemma or_shiftLeft_eq_add (val x pos : Nat) (h : val < 2 ^ pos) :
    val ||| x <<< pos = val + x * 2 ^ pos := by
  rw [Nat.shiftLeft_eq, Nat.or_comm, Nat.mul_comm x (2 ^ pos),
    ← Nat.mul_add_lt_is_or h x]
  ring

/-- Masking with `SEGMENT_BITS` is reduction mod `128`. -/
lemma and_segment_eq_mod (x : Nat) : x &&& SEGMENT_BITS = x % 128 := by
  have : SEGMENT_BITS = 2 ^ 7 - 1 := rfl
  rw [this, Nat.and_pow_two_sub_one_eq_mod]

/-- A value below `128` has the continuation bit clear. -/
lemma and_continue_of_lt {x : Nat} (h : x < 128) : x &&& CONTINUE_BIT = 0 := by
  apply Nat.eq_of_testBit_eq
  intro i
  have h128 : CONTINUE_BIT = 2 ^ 7 := rfl
  rw [h128]
  simp only [Nat.testBit_and, Nat.testBit_two_pow, Nat.zero_testBit]
  rcases Decidable.em (7 = i) with h7 | h7
  · subst h7
    rw [Nat.testBit_lt_two_pow (show x < 2 ^ 7 from h)]
    simp
  · simp [h7]

/-- Setting the continuation bit does not disturb the 7 data bits. -/
lemma or_continue_and_segment {t : Nat} (h : t < 128) :
    (t ||| CONTINUE_BIT) &&& SEGMENT_BITS = t := by
  rw [Nat.and_distrib_right, and_segment_eq_mod, and_segment_eq_mod,
    Nat.mod_eq_of_lt h]
  have hc : CONTINUE_BIT % 128 = 0 := rfl
  rw [hc, Nat.or_zero]

/-- A byte with the continuation bit ored in has the continuation bit set. -/
lemma or_continue_and_continue (t : Nat) :
    (t ||| CONTINUE_BIT) &&& CONTINUE_BIT = CONTINUE_BIT := by
  rw [Nat.and_distrib_right]
  have h1 : CONTINUE_BIT &&& CONTINUE_BIT = CONTINUE_BIT := Nat.and_self _
  rw [h1]
  apply Nat.eq_of_testBit_eq
  intro i
  have h128 : CONTINUE_BIT = 2 ^ 7 := rfl
  simp only [Nat.testBit_or, Nat.testBit_and, h128, Nat.testBit_two_pow]
  rcases Decidable.em (7 = i) with h7 | h7 <;> simp [h7]

/-- Unfolding equation for `write_varint` with the lets reduced. -/
lemma write_varint_eq (val : Int) :
    write_varint val =
      if val / 128 > 0 then
        ((val % 256).toNat &&& SEGMENT_BITS ||| CONTINUE_BIT) ::
          write_varint (val / 128)
      else [(val % 256).toNat &&& SEGMENT_BITS] := by
  rw [write_varint]

/-- On the embedding of a natural number, `write_varint` computes exactly the
unsigned group encoding the spec describes. -/
lemma write_varint_ofNat (n : Nat) : write_varint (n : Int) = encodeUnsigned n := by
  induction n using Nat.strong_induction_on with
  | _ n ih =>
    rw [write_varint_eq, encodeUnsigned]
    have h256 : (((n : Int)) % 256).toNat = n % 256 := by omega
    have hdiv : ((n : Int) / 128) = ((n / 128 : Nat) : Int) := by omega
    have htmp : (((n : Int)) % 256).toNat &&& SEGMENT_BITS = n % 128 := by
      rw [h256, and_segment_eq_mod, Nat.mod_mod_of_dvd n (by norm_num)]
    by_cases hpos : n / 128 > 0
    · rw [if_pos (by omega : ((n : Int) / 128) > 0), if_pos hpos, htmp, hdiv,
        ih (n / 128) (by omega)]
    · rw [if_neg (by omega : ¬ ((n : Int) / 128) > 0), if_neg hpos, htmp]

/-- On a non-negative value, `write_varint` computes the unsigned encoding of
its magnitude. -/
lemma write_varint_nonneg (v : Int) (h : 0 ≤ v) :
    write_varint v = encodeUnsigned v.toNat := by
  conv_lhs => rw [show v = ((v.toNat : Nat) : Int) by omega]
  rw [write_varint_ofNat]

/-- Decoding an unsigned group encoding placed at bit offset `pos` on top of an
accumulator `val` that only uses the bits below `pos` yields the combined
value.  The offset hypotheses trace the reachable states of the decoder
loop: `pos` is a multiple of 7 and at most 21. -/
lemma readVarintAux_encodeUnsigned :
    ∀ (u val pos : Nat) (rest : List Nat),
      7 ∣ pos → pos ≤ 21 → val < 2 ^ pos → u < 2 ^ (28 - pos) →
      readVarintAux (encodeUnsigned u ++ rest) val pos =
        .ok (((val + u * 2 ^ pos : Nat) : Int), rest) := by
  intro u
  induction u using Nat.strong_induction_on with
  | _ u ih =>
    intro val pos rest h7 h21 hval hu
    have hshiftlt : ∀ m : Nat, m < 128 → m <<< pos < 2 ^ 32 := by
      intro m hm
      rw [Nat.shiftLeft_eq]
      calc m * 2 ^ pos < 128 * 2 ^ pos := by
            exact (Nat.mul_lt_mul_right (Nat.pos_pow_of_pos pos (by omega))).mpr hm
        _ ≤ 128 * 2 ^ 21 := by
            exact Nat.mul_le_mul_left 128 (Nat.pow_le_pow_right (by omega) h21)
        _ < 2 ^ 32 := by norm_num
    rw [encodeUnsigned]
    by_cases hdiv : u / 128 > 0
    · have hu128 : 128 ≤ u := by omega
      have hmod : u % 128 < 128 := Nat.mod_lt u (by omega)
      rw [if_pos hdiv, List.cons_append, readVarintAux]
      rw [or_continue_and_segment hmod, or_continue_and_continue]
      rw [Nat.mod_eq_of_lt (hshiftlt (u % 128) hmod),
        or_shiftLeft_eq_add val (u % 128) pos hval]
      have hposle : pos ≤ 14 := by
        rcases Nat.lt_or_ge pos 21 with hp | hp
        · omega
        · exfalso
          have : (28 - pos) ≤ 7 := by omega
          have : 2 ^ (28 - pos) ≤ 2 ^ 7 := Nat.pow_le_pow_right (by omega) this
          omega
      rw [if_neg (by omega : ¬ pos + 7 ≥ 32), if_pos rfl]
      have hvalstep : val + u % 128 * 2 ^ pos < 2 ^ (pos + 7) := by
        have h1 : u % 128 * 2 ^ pos ≤ 127 * 2 ^ pos :=
          Nat.mul_le_mul_right (2 ^ pos) (by omega)
        have h2 : 2 ^ (pos + 7) = 2 ^ pos * 128 := by rw [pow_add]; norm_num
        calc val + u % 128 * 2 ^ pos ≤ val + 127 * 2 ^ pos := by omega
          _ < 2 ^ pos + 127 * 2 ^ pos := by omega
          _ = 2 ^ pos * 128 := by ring
          _ = 2 ^ (pos + 7) := h2.symm
      have hustep : u / 128 < 2 ^ (28 - (pos + 7)) := by
        rw [Nat.div_lt_iff_lt_mul (by omega : 0 < 128)]
        have h2 : 2 ^ (28 - (pos + 7)) * 128 = 2 ^ (28 - pos) := by
          have : 28 - pos = (28 - (pos + 7)) + 7 := by omega
          rw [this, pow_add]
          norm_num
        omega
      rw [ih (u / 128) (by omega) (val + u % 128 * 2 ^ pos) (pos + 7) rest
        (by omega) (by omega) hvalstep hustep]
      have hsplit : u % 128 + 128 * (u / 128) = u := Nat.mod_add_div u 128
      have h2 : 2 ^ (pos + 7) = 2 ^ pos * 128 := by rw [pow_add]; norm_num
      have hN : val + u % 128 * 2 ^ pos + u / 128 * 2 ^ (pos + 7)
          = val + u * 2 ^ pos := by
        calc val + u % 128 * 2 ^ pos + u / 128 * 2 ^ (pos + 7)
            = val + (u % 128 + 128 * (u / 128)) * 2 ^ pos := by rw [h2]; ring
          _ = val + u * 2 ^ pos := by rw [hsplit]
      rw [hN]
    · have hu128 : u < 128 := by omega
      have humod : u % 128 = u := Nat.mod_eq_of_lt hu128
      rw [if_neg hdiv, humod, List.cons_append, readVarintAux]
      rw [and_segment_eq_mod, humod,
        Nat.mod_eq_of_lt (hshiftlt u hu128),
        or_shiftLeft_eq_add val u pos hval]
      rw [if_neg (by omega : ¬ pos + 7 ≥ 32)]
      have hcont : ¬ (u &&& CONTINUE_BIT = CONTINUE_BIT) := by
        rw [and_continue_of_lt hu128]
        decide
      rw [if_neg hcont]
      have hlt : val + u * 2 ^ pos < 2 ^ 31 := by
        have h1 : u * 2 ^ pos ≤ (2 ^ (28 - pos) - 1) * 2 ^ pos :=
          Nat.mul_le_mul_right (2 ^ pos) (by omega)
        have h2 : 2 ^ (28 - pos) * 2 ^ pos = 2 ^ 28 := by
          rw [← pow_add]
          congr 1
          omega
        have h3 : (2 ^ 28 : Nat) < 2 ^ 31 := by norm_num
        have h4 : val < 2 ^ pos := hval
        have h5 : (2 ^ (28 - pos) - 1) * 2 ^ pos + 2 ^ pos = 2 ^ 28 := by
          have hpow : 1 ≤ 2 ^ (28 - pos) := Nat.one_le_two_pow
          calc (2 ^ (28 - pos) - 1) * 2 ^ pos + 2 ^ pos
              = (2 ^ (28 - pos) - 1 + 1) * 2 ^ pos := by ring
            _ = 2 ^ (28 - pos) * 2 ^ pos := by rw [Nat.sub_add_cancel hpow]
            _ = 2 ^ 28 := h2
        omega
      rw [toI32_small hlt, List.nil_append]

/-- Every successful run of the decoder loop from a reachable state consumes
at most `(28 - pos) / 7` bytes and produces a value below `2 ^ 28`. -/
lemma readVarintAux_ok_bound :
    ∀ (stream : List Nat) (val pos : Nat) (v : Int) (rest : List Nat),
      7 ∣ pos → val < 2 ^ pos →
      readVarintAux stream val pos = .ok (v, rest) →
      0 ≤ v ∧ v < 2 ^ 28 ∧
        ∃ pre, stream = pre ++ rest ∧ pre.length * 7 + pos ≤ 28 := by
  intro stream
  induction stream with
  | nil =>
    intro val pos v rest h7 hval h
    simp [readVarintAux] at h
  | cons b l ih =>
    intro val pos v rest h7 hval h
    rw [readVarintAux] at h
    by_cases h32 : pos + 7 ≥ 32
    · rw [if_pos h32] at h
      simp at h
    · rw [if_neg h32] at h
      have hpos21 : pos ≤ 21 := by omega
      have hval2lt :
          val ||| ((b &&& SEGMENT_BITS) <<< pos) % 2 ^ 32 < 2 ^ (pos + 7) := by
        apply Nat.or_lt_two_pow
        · calc val < 2 ^ pos := hval
            _ ≤ 2 ^ (pos + 7) := Nat.pow_le_pow_right (by omega) (by omega)
        · calc ((b &&& SEGMENT_BITS) <<< pos) % 2 ^ 32
              ≤ (b &&& SEGMENT_BITS) <<< pos := Nat.mod_le _ _
            _ = (b % 128) * 2 ^ pos := by rw [and_segment_eq_mod, Nat.shiftLeft_eq]
            _ < 128 * 2 ^ pos := by
                exact (Nat.mul_lt_mul_right
                  (Nat.pos_pow_of_pos pos (by omega))).mpr (Nat.mod_lt b (by omega))
            _ = 2 ^ (pos + 7) := by rw [pow_add]; ring
      by_cases hc : b &&& CONTINUE_BIT = CONTINUE_BIT
      · rw [if_pos hc] at h
        obtain ⟨h0, h28, pre, hpre, hlen⟩ :=
          ih (val ||| ((b &&& SEGMENT_BITS) <<< pos) % 2 ^ 32) (pos + 7) v rest
            (by omega) hval2lt h
        refine ⟨h0, h28, b :: pre, by rw [hpre, List.cons_append], ?_⟩
        simp only [List.length_cons]
        omega
      · rw [if_neg hc] at h
        simp only [Except.ok.injEq, Prod.mk.injEq] at h
        obtain ⟨hv, hrest⟩ := h
        have hsmall : val ||| ((b &&& SEGMENT_BITS) <<< pos) % 2 ^ 32 < 2 ^ 28 := by
          calc val ||| ((b &&& SEGMENT_BITS) <<< pos) % 2 ^ 32
              < 2 ^ (pos + 7) := hval2lt
            _ ≤ 2 ^ 28 := Nat.pow_le_pow_right (by omega) (by omega)
        rw [← hv, toI32_small (by omega)]
        refine ⟨by positivity, by exact_mod_cast hsmall, [b], by rw [hrest]; rfl, ?_⟩
        simp only [List.length_singleton]
        omega

/-! ## Frame parsing (`read_string`, the frame read in `Server::proxy`) -/

/-- Model of `AsyncReadExt::read_exact` into a buffer of `n` bytes: consume
exactly `n` bytes of the stream or fail with an end-of-file error. -/
def readExact (n : Nat) (s : List Nat) : Except String (List Nat × List Nat) :=
  if n ≤ s.length then .ok (s.take n, s.drop n) else .error "unexpected eof"

/-- UTF-8 decoding of a byte sequence, as validated by Rust's
`String::from_utf8`: 1-4 byte sequences, continuation bytes `80..BF`,
overlong encodings rejected (`C0`/`C1` invalid, `E0` requires `A0..`,
`F0` requires `90..`), surrogates rejected (`ED` requires `..9F`), and
code points above `10FFFF` rejected (`F4` requires `..8F`). -/
def utf8Decode : List Nat → Option (List Char)
  | [] => some []
  | b :: rest =>
    if b ≤ 0x7F then
      match utf8Decode rest with
      | some cs => some (Char.ofNat b :: cs)
      | none => none
    else if 0xC2 ≤ b ∧ b ≤ 0xDF then
      match rest with
      | c :: rest2 =>
        if 0x80 ≤ c ∧ c ≤ 0xBF then
          match utf8Decode rest2 with
          | some cs => some (Char.ofNat ((b - 0xC0) * 0x40 + (c - 0x80)) :: cs)
          | none => none
        else none
      | [] => none
    else if 0xE0 ≤ b ∧ b ≤ 0xEF then
      match rest with
      | c :: d :: rest2 =>
        if (0x80 ≤ c ∧ c ≤ 0xBF) ∧ (0x80 ≤ d ∧ d ≤ 0xBF)
            ∧ (b ≠ 0xE0 ∨ 0xA0 ≤ c) ∧ (b ≠ 0xED ∨ c ≤ 0x9F) then
          match utf8Decode rest2 with
          | some cs =>
            some (Char.ofNat ((b - 0xE0) * 0x1000 + (c - 0x80) * 0x40
              + (d - 0x80)) :: cs)
          | none => none
        else none
      | _ => none
    else if 0xF0 ≤ b ∧ b ≤ 0xF4 then
      match rest with
      | c :: d :: e :: rest2 =>
        if (0x80 ≤ c ∧ c ≤ 0xBF) ∧ (0x80 ≤ d ∧ d ≤ 0xBF) ∧ (0x80 ≤ e ∧ e ≤ 0xBF)
            ∧ (b ≠ 0xF0 ∨ 0x90 ≤ c) ∧ (b ≠ 0xF4 ∨ c ≤ 0x8F) then
          match utf8Decode rest2 with
          | some cs =>
            some (Char.ofNat ((b - 0xF0) * 0x40000 + (c - 0x80) * 0x1000
              + (d - 0x80) * 0x40 + (e - 0x80)) :: cs)
          | none => none
        else none
      | _ => none
    else none

/-- `read_string` from `src/main.rs`: decode a VarInt length `n`, read exactly
`n` bytes, and require them to be valid UTF-8.  `n.toNat` embeds Rust's
`n as usize` on the values `read_varint` can actually return (they are
never negative, see `read_varint_ok_bound`). -/
def read_string (s : List Nat) : Except String (String × List Nat) :=
  match read_varint s with
  | .error e => .error e
  | .ok (n, rest) =>
    match readExact n.toNat rest with
    | .error e => .error e
    | .ok (bytes, rest2) =>
      match utf8Decode bytes with
      | some cs => .ok (String.mk cs, rest2)
      | none => .error "invalid utf-8"

/-! ## Route table (`Server.routes`, a `DashMap<String, SocketAddr>`) -/

/-- A socket address: the display form of the IP plus the port. -/
structure Addr where
  ip : String
  port : Nat
deriving DecidableEq

/-- The hostname→address map `Server.routes`, modelled as an association list
with unique keys (`DashMap` is a map; concurrency is external to this
embedding, its operations are modelled by their linearized effects). -/
abbrev RouteTable := List (String × Addr)

/-- `DashMap::get`: the address registered for `h`, if any. -/
def lookupRoute : RouteTable → String → Option Addr
  | [], _ => none
  | (k, v) :: rest, h => if k = h then some v else lookupRoute rest h

/-- `DashMap::insert`: last-write-wins upsert of `h ↦ a`. -/
def insertRoute : RouteTable → String → Addr → RouteTable
  | [], h, a => [(h, a)]
  | (k, v) :: rest, h, a =>
    if k = h then (h, a) :: rest else (k, v) :: insertRoute rest h a

/-- `Server::register` from `src/main.rs`: combine the requester's IP with the
fixed default backend port `25565` and insert the route. -/
def register (routes : RouteTable) (hostname : String) (ip : String) : RouteTable :=
  insertRoute routes hostname ⟨ip, 25565⟩

/-- Replay a sequence of `(hostname, requester-ip)` registration calls. -/
def applyRegs (routes : RouteTable) : List (String × String) → RouteTable
  | [] => routes
  | (h, ip) :: evs => applyRegs (register routes h ip) evs

/-- The requester IP of the most recent registration for hostname `h` in a
sequence of registration calls. -/
def lastRegIp : List (String × String) → String → Option String
  | [], _ => none
  | (k, ip) :: evs, h =>
    match lastRegIp evs h with
    | some r => some r
    | none => if k = h then some ip else none

/-! ## The proxy session (`Server::proxy`) -/

/-- Observable I/O of one `Server::proxy` session up to the start of the
relay: whether (and to which address) a backend connection was dialed, the
bytes written to the backend before relaying, and whether the session
reached the bidirectional relay (`pipe_stream`).  The model assumes the
dial and the writes themselves succeed; the claims are about which of
these actions happen and what bytes they carry. -/
structure ProxyTrace where
  connected : Option Addr
  sent : List Nat
  relayed : Bool
deriving DecidableEq

/-- `Server::proxy` from `src/main.rs`: read a VarInt frame length, read that
many payload bytes, parse `packet_id` (drop the session when it is not 0),
`protocol_version` and the hostname from the front of the payload, look the
hostname up in the route table (drop the session on a miss), and otherwise
dial the backend and send the re-encoded length followed by the verbatim
payload buffer (`Cursor::into_inner` returns the untouched buffer). -/
def proxy (routes : RouteTable) (edge : List Nat) : Except String ProxyTrace :=
  match read_varint edge with
  | .error e => .error e
  | .ok (len, rest) =>
    match readExact len.toNat rest with
    | .error e => .error e
    | .ok (packet, _) =>
      match read_varint packet with
      | .error e => .error e
      | .ok (packetId, r1) =>
        if packetId ≠ 0 then .ok ⟨none, [], false⟩
        else
          match read_varint r1 with
          | .error e => .error e
          | .ok (_, r2) =>
            match read_string r2 with
            | .error e => .error e
            | .ok (hostname, _) =>
              match lookupRoute routes hostname with
              | none => .ok ⟨none, [], false⟩
              | some origin =>
                .ok ⟨some origin, write_varint (packet.length : Int) ++ packet, true⟩

/-! ## Startup configuration (`Server::new`, `impl Default for Server`) -/

/-- The persisted/in-memory state of `Server`: the route table and the two
listen addresses. -/
structure ServerState where
  routes : RouteTable
  minecraft_proxy : Addr
  http_api_server : Addr
deriving DecidableEq

/-- `impl Default for Server`: empty routes, the protocol listener on the
unspecified IPv6 address port 25565, the control listener on port 80. -/
def ServerState.defaults : ServerState :=
  { routes := [],
    minecraft_proxy := ⟨"::", 25565⟩,
    http_api_server := ⟨"::", 80⟩ }

/-- Outcome of `fs::read_to_string("config.json")` at startup. -/
inductive ReadResult where
  | ok (contents : String)
  | notFound
  | otherError (msg : String)

/-- `Server::new` from `src/main.rs`: use the parsed snapshot when the file is
readable (propagating a parse failure as an error), fall back to the
defaults when the file does not exist, and fail on any other read error.
The JSON parser (`serde_json::from_str`, external) is a parameter. -/
def Server.new (r : ReadResult) (parse : String → Option ServerState) :
    Except String ServerState :=
  match r with
  | .ok contents =>
    match parse contents with
    | some st => .ok st
    | none => .error "invalid config.json"
  | .notFound => .ok ServerState.defaults
  | .otherError e => .error ("error while reading config.json: " ++ e)

/-! ## Snapshot bridge (spec §4.6/§6; the serialization itself is derived by
`serde`/`serde_json` outside this repository, so it is modelled from the
spec's description of the persisted document) -/

/-- Decimal digit character for `d < 10`. -/
def digitChar (d : Nat) : Char := Char.ofNat (48 + d)

/-- Decimal digits of `n`, most significant first. -/
def natChars (n : Nat) : List Char :=
  if n < 10 then [digitChar n]
  else natChars (n / 10) ++ [digitChar (n % 10)]
termination_by n
decreasing_by omega

/-- Parse a run of decimal digits, most significant first, onto `acc`. -/
def parseDigits : List Char → Nat → Option Nat
  | [], acc => some acc
  | c :: rest, acc =>
    if 48 ≤ c.toNat ∧ c.toNat ≤ 57 then
      parseDigits rest (acc * 10 + (c.toNat - 48))
    else none

/-- Parse a non-empty run of decimal digits. -/
def parsePort (cs : List Char) : Option Nat :=
  if cs.isEmpty then none else parseDigits cs 0

/-- Split a character list at its last colon: `some (before, after)` when a
colon occurs, `none` otherwise.  The last colon is the one separating the
IP text (which may itself contain colons, as IPv6 text does) from the
port digits. -/
def splitLastColon : List Char → Option (List Char × List Char)
  | [] => none
  | c :: rest =>
    match splitLastColon rest with
    | some (pre, post) => some (c :: pre, post)
    | none => if c = ':' then some ([], rest) else none

/-- Modelled from the spec: the snapshot stores socket addresses as `"ip:port"`
text (§6, "the route map as hostname→`ip:port` entries"). -/
def addrToString (a : Addr) : String :=
  String.mk (a.ip.data ++ ':' :: natChars a.port)

/-- Modelled from the spec: read back an `"ip:port"` entry, splitting at the
last colon and parsing the decimal port. -/
def parseAddr (s : String) : Option Addr :=
  match splitLastColon s.data with
  | some (pre, post) =>
    match parsePort post with
    | some p => some ⟨String.mk pre, p⟩
    | none => none
  | none => none

/-- Modelled from the spec: the persisted snapshot document, "a structured
document containing the route map as hostname→`ip:port` entries plus the
two listen addresses" (§6). -/
structure Snapshot where
  routes : List (String × String)
  minecraft_proxy : String
  http_api_server : String

/-- Modelled from the spec: `save(RouteTable+ListenAddrs)` (§4.6) serializes
the full current state into the snapshot document. -/
def saveSnapshot (st : ServerState) : Snapshot :=
  { routes := st.routes.map (fun e => (e.1, addrToString e.2)),
    minecraft_proxy := addrToString st.minecraft_proxy,
    http_api_server := addrToString st.http_api_server }

/-- Modelled from the spec: `load()` (§4.6) materializes a route table and the
two listen addresses from the snapshot document, failing when any address
entry does not parse. -/
def loadSnapshot (sn : Snapshot) : Option ServerState :=
  match sn.routes.mapM (fun e => (parseAddr e.2).map (fun a => (e.1, a))),
      parseAddr sn.minecraft_proxy, parseAddr sn.http_api_server with
  | some routes, some mc, some api => some ⟨routes, mc, api⟩
  | _, _, _ => none

/-! ## Helper lemmas for the snapshot round trip -/

/-- `digitChar` of a digit reads back as that digit. -/
lemma digitChar_toNat {d : Nat} (h : d < 10) : (digitChar d).toNat = 48 + d := by
  interval_cases d <;> decide

/-- Every character `natChars` produces is a decimal digit. -/
lemma natChars_digits (n : Nat) : ∀ c ∈ natChars n, 48 ≤ c.toNat ∧ c.toNat ≤ 57 := by
  induction n using Nat.strong_induction_on with
  | _ n ih =>
    intro c hc
    rw [natChars] at hc
    by_cases h10 : n < 10
    · rw [if_pos h10] at hc
      simp only [List.mem_singleton] at hc
      subst hc
      rw [digitChar_toNat h10]
      omega
    · rw [if_neg h10] at hc
      rcases List.mem_append.mp hc with h | h
      · exact ih (n / 10) (by omega) c h
      · simp only [List.mem_singleton] at h
        subst h
        rw [digitChar_toNat (Nat.mod_lt n (by omega))]
        omega

/-- `natChars` never produces the empty list. -/
lemma natChars_ne_nil (n : Nat) : natChars n ≠ [] := by
  rw [natChars]
  by_cases h10 : n < 10
  · rw [if_pos h10]
    simp
  · rw [if_neg h10]
    simp

/-- Parsing the digits of `n` followed by anything accumulates `n`. -/
lemma parseDigits_natChars (n : Nat) :
    ∀ (acc : Nat) (rest : List Char),
      parseDigits (natChars n ++ rest) acc =
        parseDigits rest (acc * 10 ^ (natChars n).length + n) := by
  induction n using Nat.strong_induction_on with
  | _ n ih =>
    intro acc rest
    rw [natChars]
    by_cases h10 : n < 10
    · rw [if_pos h10]
      simp only [List.singleton_append, List.length_singleton, parseDigits]
      rw [if_pos (by rw [digitChar_toNat h10]; omega), digitChar_toNat h10]
      congr 1
      omega
    · rw [if_neg h10]
      rw [List.append_assoc, List.singleton_append,
        ih (n / 10) (by omega) acc (digitChar (n % 10) :: rest)]
      have hd : n % 10 < 10 := Nat.mod_lt n (by omega)
      simp only [parseDigits]
      rw [if_pos (by rw [digitChar_toNat hd]; omega), digitChar_toNat hd]
      simp only [List.length_append, List.length_singleton]
      congr 1
      have hsplit : 10 * (n / 10) + n % 10 = n := Nat.div_add_mod n 10
      rw [show (10 : Nat) ^ ((natChars (n / 10)).length + 1)
          = 10 ^ (natChars (n / 10)).length * 10 from pow_succ 10 _,
        show acc * (10 ^ (natChars (n / 10)).length * 10)
          = acc * 10 ^ (natChars (n / 10)).length * 10 from by ring]
      generalize acc * 10 ^ (natChars (n / 10)).length = A
      omega

/-- The port digits produced by `natChars` parse back to the port. -/
lemma parsePort_natChars (n : Nat) : parsePort (natChars n) = some n := by
  rw [parsePort, if_neg (by simp [natChars_ne_nil n])]
  have h := parseDigits_natChars n 0 []
  rw [List.append_nil] at h
  rw [h]
  simp [parseDigits]

/-- A list without colons has no last colon. -/
lemma splitLastColon_none {cs : List Char} (h : ∀ c ∈ cs, c ≠ ':') :
    splitLastColon cs = none := by
  induction cs with
  | nil => rfl
  | cons c rest ih =>
    rw [splitLastColon, ih (fun x hx => h x (List.mem_cons_of_mem c hx))]
    rw [if_neg (h c (List.mem_cons_self c rest))]

/-- Splitting at the last colon of `ip ++ ":" ++ digits` recovers the parts
when the digits contain no colon. -/
lemma splitLastColon_append (ip : List Char) {digits : List Char}
    (h : ∀ c ∈ digits, c ≠ ':') :
    splitLastColon (ip ++ ':' :: digits) = some (ip, digits) := by
  induction ip with
  | nil =>
    rw [List.nil_append, splitLastColon, splitLastColon_none h, if_pos rfl]
  | cons c rest ih =>
    rw [List.cons_append, splitLastColon, ih]

/-- An `"ip:port"` entry written by `addrToString` parses back to the address. -/
lemma parseAddr_addrToString (a : Addr) : parseAddr (addrToString a) = some a := by
  obtain ⟨⟨ipdata⟩, port⟩ := a
  have hnc : ∀ c ∈ natChars port, c ≠ ':' := by
    intro c hc hcolon
    have := natChars_digits port c hc
    rw [hcolon] at this
    simp at this
  rw [parseAddr, addrToString]
  have hdata : (String.mk ((String.mk ipdata).data ++ ':' :: natChars port)).data
      = ipdata ++ ':' :: natChars port := rfl
  rw [hdata, splitLastColon_append ipdata hnc]
  dsimp only
  rw [parsePort_natChars]

/-! ## Helper lemmas for the route table -/

/-- Lookup after an upsert: the inserted key maps to the new address, every
other key is untouched. -/
lemma lookupRoute_insertRoute (rs : RouteTable) (h k : String) (a : Addr) :
    lookupRoute (insertRoute rs h a) k =
      if h = k then some a else lookupRoute rs k := by
  induction rs with
  | nil => simp [insertRoute, lookupRoute]
  | cons e rest ih =>
    obtain ⟨k2, v⟩ := e
    by_cases hk2 : k2 = h
    · subst hk2
      rw [insertRoute, if_pos rfl]
      by_cases hk : k2 = k <;> simp [lookupRoute, hk]
    · rw [insertRoute, if_neg hk2]
      by_cases hk : k2 = k
      · subst hk
        simp only [lookupRoute]
        rw [if_neg (fun hh : h = k2 => hk2 hh.symm)]
        simp
      · simp only [lookupRoute, if_neg hk]
        rw [ih]

/-- Loading the per-entry serialization of a route list recovers it. -/
lemma mapM_parse_save (rs : RouteTable) :
    (rs.map (fun e => (e.1, addrToString e.2))).mapM
        (fun e => (parseAddr e.2).map (fun a => (e.1, a))) = some rs := by
  induction rs with
  | nil => rfl
  | cons e rest ih =>
    obtain ⟨h, a⟩ := e
    simp only [List.map_cons, List.mapM_cons, parseAddr_addrToString,
      Option.map_some, ih]
    rfl

/-! ## Claim theorems: VarInt codec -/

/-- C1 counterexample: the round-trip claim fails at `v = -1`.  Because
`write_varint` shifts arithmetically and stops as soon as the remainder is
not positive, `encode(-1)` is the single byte `0x7F`, which decodes to
`127`, not `-1`. -/
theorem varint_round_trip_fails_at_neg_one :
    read_varint (write_varint (-1)) = .ok (127, []) ∧ ((127 : Int) ≠ -1) := by
  have hw : write_varint (-1) = [127] := by
    rw [write_varint_eq]
    norm_num [SEGMENT_BITS]
    decide
  rw [hw]
  exact ⟨rfl, by decide⟩

/-- C1 (amended): the VarInt round trip holds exactly on the values whose
encoding the decoder accepts: for every `v` with `0 ≤ v < 2 ^ 28`,
decoding the stream produced by `write_varint v` yields `v` and consumes
exactly the encoded bytes. -/
theorem varint_round_trip (v : Int) (h0 : 0 ≤ v) (h1 : v < 2 ^ 28)
    (rest : List Nat) :
    read_varint (write_varint v ++ rest) = .ok (v, rest) := by
  rw [write_varint_nonneg v h0, read_varint,
    readVarintAux_encodeUnsigned v.toNat 0 0 rest (by omega) (by omega)
      (by norm_num) (by omega)]
  simp only [pow_zero, mul_one, zero_add]
  rw [Int.toNat_of_nonneg h0]

/-- Witness for C1 at `v = 300`. -/
theorem varint_round_trip_witness :
    read_varint (write_varint 300 ++ []) = .ok ((300 : Int), []) :=
  varint_round_trip 300 (by norm_num) (by norm_num) []

/-- C2 counterexample: a well-formed 5-group encoding whose fifth byte has the
continuation bit clear (here the canonical encoding of `2 ^ 28`, i.e. of
`0` continued into a fifth group) is rejected, not accepted: the decoder
bails out on reading the fifth byte before examining its continuation
bit. -/
theorem read_varint_rejects_clean_fifth_byte :
    read_varint [128, 128, 128, 128, 0] = .error "varint too long" := rfl

/-- C2 (amended): the decoder rejects exactly the streams requiring more than
4 groups: whenever the first four bytes all carry the continuation bit it
fails with the too-long error upon the fifth byte — whatever that byte
is — and it succeeds on every stream whose fourth byte (after three
continuation bytes) has the continuation bit clear. -/
theorem read_varint_group_limit (b1 b2 b3 b4 c4 b5 : Nat)
    (rest rest2 : List Nat)
    (h1 : b1 &&& CONTINUE_BIT = CONTINUE_BIT)
    (h2 : b2 &&& CONTINUE_BIT = CONTINUE_BIT)
    (h3 : b3 &&& CONTINUE_BIT = CONTINUE_BIT) :
    (b4 &&& CONTINUE_BIT = CONTINUE_BIT →
      read_varint (b1 :: b2 :: b3 :: b4 :: b5 :: rest) = .error "varint too long")
    ∧ (c4 &&& CONTINUE_BIT ≠ CONTINUE_BIT →
      (read_varint (b1 :: b2 :: b3 :: c4 :: rest2)).isOk = true) := by
  constructor
  · intro h4
    rw [read_varint, readVarintAux, if_neg (by omega : ¬ (0 : Nat) + 7 ≥ 32),
      if_pos h1, readVarintAux, if_neg (by omega : ¬ (7 : Nat) + 7 ≥ 32),
      if_pos h2, readVarintAux, if_neg (by omega : ¬ (14 : Nat) + 7 ≥ 32),
      if_pos h3, readVarintAux, if_neg (by omega : ¬ (21 : Nat) + 7 ≥ 32),
      if_pos h4, readVarintAux, if_pos (by omega : (28 : Nat) + 7 ≥ 32)]
  · intro hc
    rw [read_varint, readVarintAux, if_neg (by omega : ¬ (0 : Nat) + 7 ≥ 32),
      if_pos h1, readVarintAux, if_neg (by omega : ¬ (7 : Nat) + 7 ≥ 32),
      if_pos h2, readVarintAux, if_neg (by omega : ¬ (14 : Nat) + 7 ≥ 32),
      if_pos h3, readVarintAux, if_neg (by omega : ¬ (21 : Nat) + 7 ≥ 32),
      if_neg hc]
    rfl

/-- Witness for C2: four continuation bytes are rejected whatever follows, a
clear fourth byte is accepted. -/
theorem read_varint_group_limit_witness :
    (read_varint [129, 130, 131, 132, 5] = .error "varint too long")
    ∧ ((read_varint [129, 130, 131, 4, 9]).isOk = true) := by
  have h := read_varint_group_limit 129 130 131 132 4 5 [] [9]
    (by decide) (by decide) (by decide)
  exact ⟨h.1 (by decide), h.2 (by decide)⟩

/-- C5 counterexample: `write_varint` does not treat a negative value's bit
pattern as unsigned.  `encode(-1)` is the single byte `7F` (arithmetic
shift makes the remainder `-1`, failing the `val > 0` continue test
immediately), not the five bytes `FF FF FF FF 0F` the claim gives. -/
theorem write_varint_neg_one_single_byte :
    write_varint (-1) = [0x7F]
    ∧ ([0x7F] : List Nat) ≠ [0xFF, 0xFF, 0xFF, 0xFF, 0x0F] := by
  constructor
  · rw [write_varint_eq]
    norm_num [SEGMENT_BITS]
    decide
  · decide

/-- C5 (amended): on every non-negative 32-bit value the encoder behaves as
the spec describes — emit the low 7 bits of the remaining value with the
high bit set, shift right by 7, repeat while the remainder is positive,
then emit a final byte with the high bit clear.  For negative values the
shift in the code is arithmetic (signed), not unsigned, so the first
remainder is negative and the encoding collapses to one byte. -/
theorem write_varint_unsigned_on_nonneg (v : Int) (h0 : 0 ≤ v)
    (_h1 : v < 2 ^ 31) :
    write_varint v = encodeUnsigned v.toNat :=
  write_varint_nonneg v h0

/-- Witness for C5 at `v = 300`. -/
theorem write_varint_unsigned_on_nonneg_witness :
    write_varint 300 = encodeUnsigned (Int.toNat 300) :=
  write_varint_unsigned_on_nonneg 300 (by norm_num) (by norm_num)

/-- C10: whenever `read_varint` succeeds it has consumed at most 4 bytes and
its result lies in `[0, 2 ^ 28)` — in particular it is never negative, so
every accepted frame length and hostname length used to size a buffer
(`vec![0; n as usize]` in `Server::proxy` and `read_string`) is a
non-negative value below `2 ^ 28`. -/
theorem read_varint_ok_bound (stream : List Nat) (v : Int) (rest : List Nat)
    (h : read_varint stream = .ok (v, rest)) :
    0 ≤ v ∧ v < 2 ^ 28 ∧ ∃ pre, stream = pre ++ rest ∧ pre.length ≤ 4 := by
  obtain ⟨h0, h28, pre, hpre, hlen⟩ :=
    readVarintAux_ok_bound stream 0 0 v rest (by omega) (by norm_num) h
  exact ⟨h0, h28, pre, hpre, by omega⟩

/-- Witness for C10 on the stream `[1, 7]`. -/
theorem read_varint_ok_bound_witness :
    0 ≤ (1 : Int) ∧ (1 : Int) < 2 ^ 28 ∧
      ∃ pre, [1, 7] = pre ++ [7] ∧ pre.length ≤ 4 :=
  read_varint_ok_bound [1, 7] 1 [7] rfl

/-! ## Claim theorems: proxy session, route table, startup, snapshot -/

/-- C3: for a session whose frame parses with `packet_id = 0` and whose
hostname has a registered route, the bytes written to the backend before
relaying are the VarInt re-encoding of the payload length followed by the
payload exactly as read from the client (`rest.take len.toNat`, the eager
full-frame read) — including the parsed-over fields and any unparsed
trailing bytes; the payload is never rebuilt from parsed fields. -/
theorem proxy_forwards_verbatim (routes : RouteTable) (edge : List Nat)
    (len : Int) (rest r1 r2 r3 : List Nat) (pid proto : Int)
    (host : String) (a : Addr)
    (hlen : read_varint edge = .ok (len, rest))
    (hexact : len.toNat ≤ rest.length)
    (hpid : read_varint (rest.take len.toNat) = .ok (pid, r1))
    (hpid0 : pid = 0)
    (hproto : read_varint r1 = .ok (proto, r2))
    (hhost : read_string r2 = .ok (host, r3))
    (hroute : lookupRoute routes host = some a) :
    proxy routes edge =
      .ok ⟨some a,
        write_varint (((rest.take len.toNat).length : Nat) : Int)
          ++ rest.take len.toNat,
        true⟩ := by
  subst hpid0
  rw [proxy, hlen]
  dsimp only
  rw [readExact, if_pos hexact]
  dsimp only
  rw [hpid]
  dsimp only
  rw [if_neg (by norm_num : ¬ (0 : Int) ≠ 0), hproto]
  dsimp only
  rw [hhost]
  dsimp only
  rw [hroute]

/-- Witness for C3: a concrete registered session.  The frame is
`[pid = 0, proto = 0, hostlen = 1, 'h']`, prefixed by its length `4`; the
route table maps `"h"`. -/
theorem proxy_forwards_verbatim_witness :
    proxy [("h", ⟨"10.0.0.5", 25565⟩)] [4, 0, 0, 1, 104] =
      .ok ⟨some ⟨"10.0.0.5", 25565⟩,
        write_varint ((((([0, 0, 1, 104] : List Nat).take (Int.toNat 4)).length
          : Nat) : Int)) ++ ([0, 0, 1, 104] : List Nat).take (Int.toNat 4),
        true⟩ :=
  proxy_forwards_verbatim [("h", ⟨"10.0.0.5", 25565⟩)] [4, 0, 0, 1, 104]
    4 [0, 0, 1, 104] [0, 1, 104] [1, 104] [] 0 0 "h" ⟨"10.0.0.5", 25565⟩
    rfl (by norm_num) rfl rfl rfl rfl rfl

/-- C4: a session never dials a backend unless the frame's `packet_id` is 0
and the hostname has a registered route, and in both drop cases
(`packet_id ≠ 0`, or a route-table miss) the session returns successfully
having performed no backend I/O at all. -/
theorem proxy_drop_cases (routes : RouteTable) (edge : List Nat)
    (len : Int) (rest r1 r2 r3 : List Nat) (pid proto : Int) (host : String) :
    (read_varint edge = .ok (len, rest) → len.toNat ≤ rest.length →
      read_varint (rest.take len.toNat) = .ok (pid, r1) → pid ≠ 0 →
      proxy routes edge = .ok ⟨none, [], false⟩)
    ∧ (read_varint edge = .ok (len, rest) → len.toNat ≤ rest.length →
      read_varint (rest.take len.toNat) = .ok (pid, r1) → pid = 0 →
      read_varint r1 = .ok (proto, r2) →
      read_string r2 = .ok (host, r3) →
      lookupRoute routes host = none →
      proxy routes edge = .ok ⟨none, [], false⟩)
    ∧ (∀ tr : ProxyTrace, proxy routes edge = .ok tr → tr.connected ≠ none →
      ∃ (len2 : Int) (rest2 b1 : List Nat) (proto2 : Int) (b2 : List Nat)
        (host2 : String) (b3 : List Nat) (a : Addr),
        read_varint edge = .ok (len2, rest2)
        ∧ read_varint (rest2.take len2.toNat) = .ok (0, b1)
        ∧ read_varint b1 = .ok (proto2, b2)
        ∧ read_string b2 = .ok (host2, b3)
        ∧ lookupRoute routes host2 = some a
        ∧ tr.connected = some a) := by
  refine ⟨?_, ?_, ?_⟩
  · intro hlen hexact hpid hpid0
    rw [proxy, hlen]
    dsimp only
    rw [readExact, if_pos hexact]
    dsimp only
    rw [hpid]
    dsimp only
    rw [if_pos hpid0]
  · intro hlen hexact hpid hpid0 hproto hhost hroute
    subst hpid0
    rw [proxy, hlen]
    dsimp only
    rw [readExact, if_pos hexact]
    dsimp only
    rw [hpid]
    dsimp only
    rw [if_neg (by norm_num : ¬ (0 : Int) ≠ 0), hproto]
    dsimp only
    rw [hhost]
    dsimp only
    rw [hroute]
  · intro tr htr hconn
    rw [proxy] at htr
    cases hlen : read_varint edge with
    | error e => rw [hlen] at htr; simp at htr
    | ok p =>
      obtain ⟨len2, rest2⟩ := p
      rw [hlen] at htr
      dsimp only at htr
      rw [readExact] at htr
      by_cases hexact : len2.toNat ≤ rest2.length
      · rw [if_pos hexact] at htr
        dsimp only at htr
        cases hpid : read_varint (rest2.take len2.toNat) with
        | error e => rw [hpid] at htr; simp at htr
        | ok q =>
          obtain ⟨pid2, b1⟩ := q
          rw [hpid] at htr
          dsimp only at htr
          by_cases hpid0 : pid2 ≠ 0
          · rw [if_pos hpid0] at htr
            simp only [Except.ok.injEq] at htr
            rw [← htr] at hconn
            simp at hconn
          · rw [if_neg hpid0] at htr
            push_neg at hpid0
            subst hpid0
            cases hproto : read_varint b1 with
            | error e => rw [hproto] at htr; simp at htr
            | ok q2 =>
              obtain ⟨proto2, b2⟩ := q2
              rw [hproto] at htr
              dsimp only at htr
              cases hhost : read_string b2 with
              | error e => rw [hhost] at htr; simp at htr
              | ok q3 =>
                obtain ⟨host2, b3⟩ := q3
                rw [hhost] at htr
                dsimp only at htr
                cases hroute : lookupRoute routes host2 with
                | none =>
                  rw [hroute] at htr
                  simp only [Except.ok.injEq] at htr
                  rw [← htr] at hconn
                  simp at hconn
                | some a =>
                  rw [hroute] at htr
                  simp only [Except.ok.injEq] at htr
                  refine ⟨len2, rest2, b1, proto2, b2, host2, b3, a,
                    rfl, hpid, hproto, hhost, hroute, ?_⟩
                  rw [← htr]
      · rw [if_neg hexact] at htr
        simp at htr

/-- Witness for C4: concrete drop sessions — a frame with `packet_id = 1` and
a frame whose hostname has no route; both end with the empty trace. -/
theorem proxy_drop_cases_witness :
    (proxy [] [2, 1, 0] = .ok ⟨none, [], false⟩)
    ∧ (proxy [] [4, 0, 0, 1, 104] = .ok ⟨none, [], false⟩) := by
  constructor
  · exact (proxy_drop_cases [] [2, 1, 0] 2 [1, 0] [0] [] [] 1 0 "h").1
      rfl (by norm_num) rfl (by norm_num)
  · exact (proxy_drop_cases [] [4, 0, 0, 1, 104] 4 [0, 0, 1, 104] [0, 1, 104]
      [1, 104] [] 0 0 "h").2.1 rfl (by norm_num) rfl rfl rfl rfl rfl

/-- C6: `Server::register` inserts `hostname ↦ (requester-ip, 25565)` as a
last-write-wins upsert: after any sequence of registration calls, looking a
hostname up yields the address built from the most recent registration for
it (and an unregistered hostname still sees the prior table). -/
theorem register_route_last_write_wins :
    ∀ (evs : List (String × String)) (rs : RouteTable) (h : String),
      lookupRoute (applyRegs rs evs) h =
        match lastRegIp evs h with
        | some ip => some ⟨ip, 25565⟩
        | none => lookupRoute rs h := by
  intro evs
  induction evs with
  | nil =>
    intro rs h
    rfl
  | cons e evs2 ih =>
    obtain ⟨k, ip⟩ := e
    intro rs h
    rw [applyRegs, ih (register rs k ip) h, lastRegIp]
    cases hl : lastRegIp evs2 h with
    | some r => rfl
    | none =>
      dsimp only
      rw [register, lookupRoute_insertRoute]
      by_cases hk : k = h
      · subst hk
        simp
      · simp [hk]

/-- C7: `Server::new` falls back to the built-in defaults — empty route table,
protocol listener on port 25565, control listener on port 80 — exactly when
the snapshot file is absent; a parse failure of an existing snapshot and
any other read error are both fatal. -/
theorem server_new_load (parse : String → Option ServerState) (s e : String) :
    Server.new .notFound parse = .ok ⟨[], ⟨"::", 25565⟩, ⟨"::", 80⟩⟩
    ∧ (parse s = none →
        Server.new (.ok s) parse = .error "invalid config.json")
    ∧ Server.new (.otherError e) parse
        = .error ("error while reading config.json: " ++ e) := by
  refine ⟨rfl, ?_, rfl⟩
  intro hp
  simp only [Server.new, hp]

/-- Witness for C7: defaults on a missing file, fatal error on an unparsable
file. -/
theorem server_new_load_witness :
    Server.new .notFound (fun _ => none)
        = .ok ⟨[], ⟨"::", 25565⟩, ⟨"::", 80⟩⟩
    ∧ Server.new (.ok "notjson") (fun _ => none)
        = .error "invalid config.json" := by
  have h := server_new_load (fun _ => none) "notjson" "denied"
  exact ⟨h.1, h.2.1 rfl⟩

/-- C8: loading the snapshot written by `save` restores the identical
hostname→address pairs and the identical listen addresses. -/
theorem snapshot_round_trip (st : ServerState) :
    loadSnapshot (saveSnapshot st) = some st := by
  obtain ⟨routes, mc, api⟩ := st
  rw [loadSnapshot, saveSnapshot]
  dsimp only
  rw [mapM_parse_save routes, parseAddr_addrToString mc, parseAddr_addrToString api]
